import Mathlib

/-!
Verification of the analytics aggregation engine of the sectracker
repository (src/src/components/AnalyticsView.tsx).

The TypeScript component fetches a collection of bug records and derives
five aggregate structures: summary statistics, a monthly series, category
distributions, a platform rollup and a program leaderboard.  This file
gives a shallow embedding of the data model and of the aggregation
functions (`filterBugsByTimeRange`, `calculateStats`,
`calculateMonthlyData`, `calculatePlatformData`, `calculateTopPrograms`)
and proves the specified properties about them.

Modelling conventions:
* JavaScript numbers carrying money are modelled as rationals.
* A JavaScript `Date` built from a `created_at` timestamp is modelled by
  its calendar fields: year, month index (0 to 11), day of month
  (1-based) and milliseconds elapsed within the day.  Comparison of two
  `Date` values is lexicographic on those fields, which agrees with the
  comparison of their underlying epoch values for well-formed dates.
  The `Date(year, month, day)` constructor normalises an out-of-range
  month index into the year, and day 0 into the last day of the previous
  month, exactly as in JavaScript.
* `submission_date` and `resolution_date` are used by the source only
  through `getTime()`, so they are modelled directly as epoch
  milliseconds (`Option Int`; `null` becomes `none`).
* The label produced by `toLocaleDateString` with a short month and a
  two digit year is injectively determined by the pair
  (month index, year mod 100); that pair is used as the bucket key of
  the monthly series.
* The JavaScript truthiness test `x || 'Unknown'` on an optional string
  yields `Unknown` both for a missing value and for the empty string.
-/

/-- A platform reference nested inside a program reference. -/
structure PlatformRef where
  name : String
deriving DecidableEq, Repr

/-- A program reference nested inside a bug record. -/
structure ProgramRef where
  target_name : String
  company : String
  platforms : Option PlatformRef
deriving DecidableEq, Repr

/-- A JavaScript `Date`, modelled by calendar fields.  `month` is the
0-based month index, `day` the 1-based day of the month and `ms` the
number of milliseconds elapsed within the day. -/
structure JSDate where
  year : Int
  month : Int
  day : Int
  ms : Int
deriving DecidableEq, Repr

/-- The `BugData` record of AnalyticsView.tsx. -/
structure BugData where
  id : String
  title : String
  severity : String
  status : String
  bounty_amount : Option ℚ
  created_at : JSDate
  submission_date : Option Int
  resolution_date : Option Int
  program_id : Option String
  programs : Option ProgramRef
deriving DecidableEq, Repr

/-- Strict comparison of two dates: lexicographic on the calendar
fields, matching the comparison of epoch values for well-formed dates. -/
def dateLtB (a b : JSDate) : Bool :=
  decide (a.year < b.year) ||
    (decide (a.year = b.year) && (decide (a.month < b.month) ||
      (decide (a.month = b.month) && (decide (a.day < b.day) ||
        (decide (a.day = b.day) && decide (a.ms < b.ms))))))

/-- Non-strict comparison of two dates. -/
def dateLeB (a b : JSDate) : Bool :=
  dateLtB a b || decide (a = b)

/-- Leap year rule of the proleptic Gregorian calendar used by
JavaScript dates. -/
def isLeapYear (y : Int) : Bool :=
  (decide (y % 4 = 0) && !decide (y % 100 = 0)) || decide (y % 400 = 0)

/-- Number of days of the (0-indexed) month `m` of year `y`. -/
def daysInMonth (y m : Int) : Int :=
  if m = 1 then (if isLeapYear y then 29 else 28)
  else if m = 3 ∨ m = 5 ∨ m = 8 ∨ m = 10 then 30
  else 31

/-- `new Date(y, m, 1)`: first day of month `m` of year `y` at
midnight, with the month index normalised into the year as JavaScript
does (so `m` may be negative or at least 12). -/
def mkMonthStart (y m : Int) : JSDate :=
  ⟨y + m / 12, m % 12, 1, 0⟩

/-- `new Date(y, m, 0)`: the day before the first day of the normalised
month `m` of year `y`, at midnight; that is, the last day of the
previous month. -/
def mkMonthEnd (y m : Int) : JSDate :=
  let yy := y + m / 12
  let mm := m % 12
  if mm = 0 then ⟨yy - 1, 11, 31, 0⟩
  else ⟨yy, mm - 1, daysInMonth yy (mm - 1), 0⟩

/-- `filterBugsByTimeRange` from AnalyticsView.tsx: narrow the record
collection to records created at or after the start of the selected
window; any selector other than `month`, `6months` and `year` (in
particular `all`) returns the input unchanged. -/
def filterBugsByTimeRange (bugs : List BugData) (range : String) (now : JSDate) :
    List BugData :=
  if range = "month" then
    bugs.filter (fun b => dateLeB (mkMonthStart now.year now.month) b.created_at)
  else if range = "6months" then
    bugs.filter (fun b => dateLeB (mkMonthStart now.year (now.month - 6)) b.created_at)
  else if range = "year" then
    bugs.filter (fun b => dateLeB (mkMonthStart now.year 0) b.created_at)
  else bugs

example : dateLeB ⟨2024, 4, 30, 0⟩ ⟨2024, 5, 1, 0⟩ = true := by decide
example : dateLeB ⟨2024, 5, 1, 1⟩ ⟨2024, 5, 1, 0⟩ = false := by decide
example : mkMonthStart 2024 (-1) = ⟨2023, 11, 1, 0⟩ := by decide
example : mkMonthStart 2024 13 = ⟨2025, 1, 1, 0⟩ := by decide
example : mkMonthEnd 2024 5 = ⟨2024, 4, 31, 0⟩ := by decide
example : mkMonthEnd 2024 0 = ⟨2023, 11, 31, 0⟩ := by decide
example : mkMonthEnd 2024 2 = ⟨2024, 1, 29, 0⟩ := by decide

/-- The accepted statuses of AnalyticsView.tsx. -/
def acceptedStatuses : List String := ["Accepted", "Resolved", "Bounty Awarded"]

/-- The rejected statuses of AnalyticsView.tsx. -/
def rejectedStatuses : List String := ["Duplicate", "Not Applicable"]

/-- The pending statuses of AnalyticsView.tsx. -/
def pendingStatuses : List String := ["Draft", "Submitted", "Triaged"]

/-- The resolved statuses: `[...acceptedStatuses, 'Duplicate', 'Not Applicable']`. -/
def resolvedStatuses : List String := acceptedStatuses ++ rejectedStatuses

/-- `bug.bounty_amount || 0`: a missing bounty counts as zero (and a
zero bounty, although falsy, also yields zero). -/
def bountyOrZero (b : BugData) : ℚ :=
  match b.bounty_amount with
  | some a => a
  | none => 0

/-- The `AnalyticsStats` record of AnalyticsView.tsx. -/
structure AnalyticsStats where
  totalBugs : Nat
  totalEarnings : ℚ
  acceptedBugs : Nat
  rejectedBugs : Nat
  pendingBugs : Nat
  successRate : ℚ
  avgBounty : ℚ
  avgTimeToResolution : ℚ
  thisMonthEarnings : ℚ
  lastMonthEarnings : ℚ
  thisYearEarnings : ℚ
  lastYearEarnings : ℚ
deriving Repr

/-- `calculateStats` from AnalyticsView.tsx.  The first argument is the
time-window filtered collection, the second the unfiltered collection
(used by the four calendar-bucketed earnings sums). -/
def calculateStats (filteredBugs allBugs : List BugData) (now : JSDate) :
    AnalyticsStats :=
  let thisMonthStart := mkMonthStart now.year now.month
  let lastMonthStart := mkMonthStart now.year (now.month - 1)
  let lastMonthEnd := mkMonthEnd now.year now.month
  let thisYearStart := mkMonthStart now.year 0
  let lastYearStart := mkMonthStart (now.year - 1) 0
  let lastYearEnd : JSDate := ⟨now.year - 1, 11, 31, 0⟩
  let totalEarnings := filteredBugs.foldl (fun sum b => sum + bountyOrZero b) 0
  let acceptedBugs := (filteredBugs.filter (fun b => acceptedStatuses.contains b.status)).length
  let rejectedBugs := (filteredBugs.filter (fun b => rejectedStatuses.contains b.status)).length
  let pendingBugs := (filteredBugs.filter (fun b => pendingStatuses.contains b.status)).length
  let resolvedBugs := filteredBugs.filter
    (fun b => acceptedStatuses.contains b.status || rejectedStatuses.contains b.status)
  let successRate : ℚ :=
    if resolvedBugs.length > 0 then ((acceptedBugs : ℚ) / (resolvedBugs.length : ℚ)) * 100
    else 0
  let bugsWithBounty := filteredBugs.filter
    (fun b => match b.bounty_amount with
      | some a => decide (0 < a)
      | none => false)
  let avgBounty : ℚ :=
    if bugsWithBounty.length > 0 then totalEarnings / (bugsWithBounty.length : ℚ) else 0
  let bugsWithResolution := filteredBugs.filter
    (fun b => b.submission_date.isSome && b.resolution_date.isSome)
  let avgTimeToResolution : ℚ :=
    if bugsWithResolution.length > 0 then
      let totalDays : Int := bugsWithResolution.foldl
        (fun sum b =>
          match b.submission_date, b.resolution_date with
          | some sub, some res => sum + ⌈((res : ℚ) - (sub : ℚ)) / (1000 * 60 * 60 * 24)⌉
          | _, _ => sum) 0
      (totalDays : ℚ) / (bugsWithResolution.length : ℚ)
    else 0
  let thisMonthEarnings := (allBugs.filter
    (fun b => dateLeB thisMonthStart b.created_at)).foldl
      (fun sum b => sum + bountyOrZero b) 0
  let lastMonthEarnings := (allBugs.filter
    (fun b => dateLeB lastMonthStart b.created_at && dateLeB b.created_at lastMonthEnd)).foldl
      (fun sum b => sum + bountyOrZero b) 0
  let thisYearEarnings := (allBugs.filter
    (fun b => dateLeB thisYearStart b.created_at)).foldl
      (fun sum b => sum + bountyOrZero b) 0
  let lastYearEarnings := (allBugs.filter
    (fun b => dateLeB lastYearStart b.created_at && dateLeB b.created_at lastYearEnd)).foldl
      (fun sum b => sum + bountyOrZero b) 0
  { totalBugs := filteredBugs.length
    totalEarnings := totalEarnings
    acceptedBugs := acceptedBugs
    rejectedBugs := rejectedBugs
    pendingBugs := pendingBugs
    successRate := successRate
    avgBounty := avgBounty
    avgTimeToResolution := avgTimeToResolution
    thisMonthEarnings := thisMonthEarnings
    lastMonthEarnings := lastMonthEarnings
    thisYearEarnings := thisYearEarnings
    lastYearEarnings := lastYearEarnings }

/-- The analytics pipeline of `fetchAnalyticsData`: the stats receive
the time-window filtered collection together with the unfiltered one. -/
def analyticsStats (bugs : List BugData) (range : String) (now : JSDate) :
    AnalyticsStats :=
  calculateStats (filterBugsByTimeRange bugs range now) bugs now

/-- A bucket of the monthly series.  `month` is the bucket key standing
for the locale label (short month name plus two digit year), determined
by the pair (month index, year mod 100). -/
structure MonthlyData where
  month : Int × Int
  earnings : ℚ
  submissions : Nat
  accepted : Nat
deriving DecidableEq, Repr

/-- Key of the locale label `short month + 2-digit year` of a date. -/
def monthKey (d : JSDate) : Int × Int := (d.month, d.year % 100)

/-- One record landing in a monthly bucket: `submissions += 1`,
`earnings += bounty_amount || 0`, `accepted += 1` for accepted
statuses. -/
def bumpMonthly (b : BugData) (md : MonthlyData) : MonthlyData :=
  { md with
    submissions := md.submissions + 1
    earnings := md.earnings + bountyOrZero b
    accepted := if acceptedStatuses.contains b.status then md.accepted + 1 else md.accepted }

/-- The twelve zero-initialised buckets of the monthly series, oldest
first: the source iterates `i = 11` down to `0` over
`new Date(year, month - i, 1)`. -/
def monthlyInit (now : JSDate) : List MonthlyData :=
  (List.range 12).map (fun (i : Nat) =>
    { month := monthKey (mkMonthStart now.year (now.month - 11 + (i : Int)))
      earnings := 0
      submissions := 0
      accepted := 0 })

/-- `calculateMonthlyData` from AnalyticsView.tsx.  Each record whose
label key matches a bucket updates that bucket; the twelve bucket keys
are pairwise distinct (twelve consecutive months have twelve distinct
month indices), so updating the unique entry of the keyed map is the
same as mapping a key-guarded update over all buckets. -/
def calculateMonthlyData (bugs : List BugData) (now : JSDate) : List MonthlyData :=
  bugs.foldl
    (fun acc b => acc.map
      (fun md => if md.month = monthKey b.created_at then bumpMonthly b md else md))
    (monthlyInit now)

/-- `bug.programs?.platforms?.name || 'Unknown'`. -/
def platformNameOf (b : BugData) : String :=
  match b.programs with
  | some p =>
    match p.platforms with
    | some pl => if pl.name = "" then "Unknown" else pl.name
    | none => "Unknown"
  | none => "Unknown"

/-- `bug.programs?.target_name || 'Unknown'`. -/
def programNameOf (b : BugData) : String :=
  match b.programs with
  | some p => if p.target_name = "" then "Unknown" else p.target_name
  | none => "Unknown"

/-- `bug.programs?.company || 'Unknown'`. -/
def companyNameOf (b : BugData) : String :=
  match b.programs with
  | some p => if p.company = "" then "Unknown" else p.company
  | none => "Unknown"

/-- The accumulator kept per platform name by `calculatePlatformData`. -/
structure PlatAcc where
  name : String
  bugs : Nat
  earnings : ℚ
  accepted : Nat
  total : Nat
deriving DecidableEq, Repr

/-- The mutation performed by `calculatePlatformData` on the entry of
the current record: `bugs += 1`, `earnings += bounty_amount || 0`, and
for resolved statuses `total += 1` and, for accepted statuses,
`accepted += 1`. -/
def bumpPlat (b : BugData) (e : PlatAcc) : PlatAcc :=
  { e with
    bugs := e.bugs + 1
    earnings := e.earnings + bountyOrZero b
    total := if resolvedStatuses.contains b.status then e.total + 1 else e.total
    accepted :=
      if resolvedStatuses.contains b.status then
        if acceptedStatuses.contains b.status then e.accepted + 1 else e.accepted
      else e.accepted }

/-- Apply `bumpPlat` to the first entry named `k` of the accumulator
list (the keyed map holds at most one entry per name). -/
def bumpFirstPlat (k : String) (b : BugData) : List PlatAcc → List PlatAcc
  | [] => []
  | e :: es => if e.name = k then bumpPlat b e :: es else e :: bumpFirstPlat k b es

/-- The zero-initialised entry created for a new platform name. -/
def initPlat (k : String) : PlatAcc :=
  { name := k, bugs := 0, earnings := 0, accepted := 0, total := 0 }

/-- One step of the grouping pass of `calculatePlatformData`: ensure an
entry exists for the platform name of the record (appending a
zero-initialised entry, preserving insertion order), then mutate it. -/
def addPlat (acc : List PlatAcc) (b : BugData) : List PlatAcc :=
  let k := platformNameOf b
  let acc' := if acc.any (fun e => decide (e.name = k)) then acc
    else acc ++ [initPlat k]
  bumpFirstPlat k b acc'

/-- The grouping pass of `calculatePlatformData`, in insertion order. -/
def groupPlatforms (bugs : List BugData) : List PlatAcc :=
  bugs.foldl addPlat []

/-- The `PlatformData` output record of AnalyticsView.tsx. -/
structure PlatformData where
  name : String
  bugs : Nat
  earnings : ℚ
  successRate : Int
deriving DecidableEq, Repr

/-- Final shape of a platform group:
`successRate = Math.round(accepted / total * 100)`, 0 when `total` is 0.
`Math.round` rounds half towards positive infinity, as does `round`. -/
def toPlatformData (e : PlatAcc) : PlatformData :=
  { name := e.name
    bugs := e.bugs
    earnings := e.earnings
    successRate :=
      if e.total > 0 then round (((e.accepted : ℚ) / (e.total : ℚ)) * 100) else 0 }

/-- Stable descending insertion by an earnings key: the new element
goes after every element whose key is at least as large.  Together with
the left fold of `sortEarnDesc` this computes exactly what the stable
JavaScript `sort((a, b) => b.earnings - a.earnings)` computes. -/
def insertEarnDesc {α : Type} (earn : α → ℚ) (x : α) : List α → List α
  | [] => [x]
  | y :: ys => if earn y < earn x then x :: y :: ys else y :: insertEarnDesc earn x ys

/-- Stable sort, descending by an earnings key. -/
def sortEarnDesc {α : Type} (earn : α → ℚ) (l : List α) : List α :=
  l.foldl (fun acc x => insertEarnDesc earn x acc) []

/-- `calculatePlatformData` from AnalyticsView.tsx: group by platform
name, convert, and sort descending by earnings (stable). -/
def calculatePlatformData (bugs : List BugData) : List PlatformData :=
  sortEarnDesc (fun p => p.earnings) ((groupPlatforms bugs).map toPlatformData)

/-- The accumulator kept per program name by `calculateTopPrograms`.
The company is recorded only when the entry is created. -/
structure ProgAcc where
  name : String
  company : String
  bugs : Nat
  earnings : ℚ
  accepted : Nat
  total : Nat
deriving DecidableEq, Repr

/-- The mutation performed by `calculateTopPrograms` on the entry of
the current record; the company field is left unchanged. -/
def bumpProg (b : BugData) (e : ProgAcc) : ProgAcc :=
  { e with
    bugs := e.bugs + 1
    earnings := e.earnings + bountyOrZero b
    total := if resolvedStatuses.contains b.status then e.total + 1 else e.total
    accepted :=
      if resolvedStatuses.contains b.status then
        if acceptedStatuses.contains b.status then e.accepted + 1 else e.accepted
      else e.accepted }

/-- Apply `bumpProg` to the first entry named `k`. -/
def bumpFirstProg (k : String) (b : BugData) : List ProgAcc → List ProgAcc
  | [] => []
  | e :: es => if e.name = k then bumpProg b e :: es else e :: bumpFirstProg k b es

/-- The zero-initialised entry created for a new program name,
recording the company of the record that created it. -/
def initProg (k c : String) : ProgAcc :=
  { name := k, company := c, bugs := 0, earnings := 0, accepted := 0, total := 0 }

/-- One step of the grouping pass of `calculateTopPrograms`: a missing
entry is created with the company of the current record; an existing
entry keeps its company. -/
def addProg (acc : List ProgAcc) (b : BugData) : List ProgAcc :=
  let k := programNameOf b
  let acc' := if acc.any (fun e => decide (e.name = k)) then acc
    else acc ++ [initProg k (companyNameOf b)]
  bumpFirstProg k b acc'

/-- The grouping pass of `calculateTopPrograms`, in insertion order. -/
def groupPrograms (bugs : List BugData) : List ProgAcc :=
  bugs.foldl addProg []

/-- The `ProgramData` output record of AnalyticsView.tsx. -/
structure ProgramData where
  name : String
  company : String
  bugs : Nat
  earnings : ℚ
  successRate : Int
deriving DecidableEq, Repr

/-- Final shape of a program group. -/
def toProgramData (e : ProgAcc) : ProgramData :=
  { name := e.name
    company := e.company
    bugs := e.bugs
    earnings := e.earnings
    successRate :=
      if e.total > 0 then round (((e.accepted : ℚ) / (e.total : ℚ)) * 100) else 0 }

/-- `calculateTopPrograms` from AnalyticsView.tsx: group by program
name, convert, sort descending by earnings (stable) and keep the first
five entries. -/
def calculateTopPrograms (bugs : List BugData) : List ProgramData :=
  (sortEarnDesc (fun p => p.earnings) ((groupPrograms bugs).map toProgramData)).take 5

/-- Company of the group named `g`, read off the grouped accumulator. -/
def companyLookup (l : List ProgAcc) (g : String) : Option String :=
  (l.find? (fun e => decide (e.name = g))).map (fun e => e.company)

/-- Sum of the bounty amounts of a collection, missing amounts counting
as zero. -/
def sumBounty (bugs : List BugData) : ℚ :=
  (bugs.map bountyOrZero).sum

/-- A well-formed parsed timestamp: month index between 0 and 11, day
of month between 1 and 31, and a millisecond offset within the day. -/
def WFDate (d : JSDate) : Prop :=
  0 ≤ d.month ∧ d.month ≤ 11 ∧ 1 ≤ d.day ∧ d.day ≤ 31 ∧
    0 ≤ d.ms ∧ d.ms < 1000 * 60 * 60 * 24

instance (d : JSDate) : Decidable (WFDate d) := by
  unfold WFDate; infer_instance

/-- Membership test of the this-month earnings bucket, spelled on
calendar fields: the record was created in the current calendar month
or in any later month. -/
def thisMonthOrLaterB (now d : JSDate) : Bool :=
  decide (now.year < d.year) ||
    (decide (d.year = now.year) && decide (now.month ≤ d.month))

/-- Membership test of the this-year earnings bucket, spelled on
calendar fields: the record was created in the current calendar year or
in any later year. -/
def thisYearOrLaterB (now d : JSDate) : Bool :=
  decide (now.year ≤ d.year)

/-- Membership test of the last-month earnings bucket, spelled on
calendar fields: the record was created in the previous calendar month,
but records created strictly after midnight on the final day of that
month are excluded. -/
def inPrevMonthClippedB (now d : JSDate) : Bool :=
  let prev := mkMonthStart now.year (now.month - 1)
  let lastDay := daysInMonth prev.year prev.month
  decide (d.year = prev.year) && decide (d.month = prev.month) &&
    (decide (d.day < lastDay) || (decide (d.day = lastDay) && decide (d.ms = 0)))

/-- Membership test of the last-year earnings bucket, spelled on
calendar fields: the record was created in the previous calendar year,
but records created strictly after midnight on December 31 of that year
are excluded. -/
def inPrevYearClippedB (now d : JSDate) : Bool :=
  decide (d.year = now.year - 1) &&
    !(decide (d.month = 11) && decide (d.day = 31) && decide (0 < d.ms))

theorem foldl_add_bounty (l : List BugData) (s : ℚ) :
    l.foldl (fun sum b => sum + bountyOrZero b) s = s + sumBounty l := by
  induction l generalizing s with
  | nil => simp [sumBounty]
  | cons b t ih => simp [sumBounty, List.foldl_cons, ih, add_assoc]

theorem accepted_not_rejected (s : String) (h : acceptedStatuses.contains s = true) :
    rejectedStatuses.contains s = false := by
  simp only [acceptedStatuses, List.contains_cons, List.contains_nil,
    Bool.or_eq_true, Bool.or_false, beq_iff_eq] at h
  rcases h with h | h | h <;> subst h <;> decide

theorem filter_or_length_disjoint (p q : BugData → Bool) (l : List BugData)
    (h : ∀ b, p b = true → q b = false) :
    (l.filter (fun b => p b || q b)).length =
      (l.filter p).length + (l.filter q).length := by
  induction l with
  | nil => simp
  | cons b t ih =>
    cases hp : p b with
    | false =>
      cases hq : q b <;> simp [List.filter_cons, hp, hq, ih] <;> try omega
    | true =>
      have hq := h b hp
      simp [List.filter_cons, hp, hq, ih]
      omega

/-- Whole days, rounded up, between the submission date and the
resolution date of a record; zero when either date is missing.  The
difference may be negative and is not clamped. -/
def perRecordDays (b : BugData) : Int :=
  match b.submission_date, b.resolution_date with
  | some sub, some res => ⌈((res : ℚ) - (sub : ℚ)) / (1000 * 60 * 60 * 24)⌉
  | _, _ => 0

theorem foldl_add_days (l : List BugData) (s : Int) :
    l.foldl
      (fun sum b =>
        match b.submission_date, b.resolution_date with
        | some sub, some res => sum + ⌈((res : ℚ) - (sub : ℚ)) / (1000 * 60 * 60 * 24)⌉
        | _, _ => sum) s = s + (l.map perRecordDays).sum := by
  induction l generalizing s with
  | nil => simp
  | cons b t ih =>
    rcases hsub : b.submission_date with _ | sub <;>
      rcases hres : b.resolution_date with _ | res <;>
      simp [List.foldl_cons, ih, perRecordDays, hsub, hres, add_assoc]

/-- C8: `avgTimeToResolution` is the arithmetic mean, over exactly the
filtered records carrying both a submission and a resolution date, of
the per-record ceiling of the day difference between the two dates, and
is `0` when no record qualifies; negative day differences enter the
mean unclamped. -/
theorem avgTimeToResolution_spec (bugs allBugs : List BugData) (now : JSDate) :
    (calculateStats bugs allBugs now).avgTimeToResolution =
      (if (bugs.filter
            (fun b => b.submission_date.isSome && b.resolution_date.isSome)).length = 0
        then 0
        else ((((bugs.filter
            (fun b => b.submission_date.isSome && b.resolution_date.isSome)).map
              perRecordDays).sum : Int) : ℚ) /
          (((bugs.filter
            (fun b => b.submission_date.isSome && b.resolution_date.isSome)).length : Nat) : ℚ)) := by
  have h : (calculateStats bugs allBugs now).avgTimeToResolution =
      (if 0 < (bugs.filter
            (fun b => b.submission_date.isSome && b.resolution_date.isSome)).length
        then (((bugs.filter
            (fun b => b.submission_date.isSome && b.resolution_date.isSome)).foldl
          (fun sum b =>
            match b.submission_date, b.resolution_date with
            | some sub, some res => sum + ⌈((res : ℚ) - (sub : ℚ)) / (1000 * 60 * 60 * 24)⌉
            | _, _ => sum) 0 : Int) : ℚ) /
          ((bugs.filter
            (fun b => b.submission_date.isSome && b.resolution_date.isSome)).length : ℚ)
        else 0) := rfl
  rw [h, foldl_add_days, zero_add]
  rcases Nat.eq_zero_or_pos
      (bugs.filter (fun b => b.submission_date.isSome && b.resolution_date.isSome)).length
    with h0 | h0
  · rw [if_neg (by omega), if_pos h0]
  · rw [if_pos h0, if_neg (by omega)]

theorem insertEarnDesc_perm {α : Type} (earn : α → ℚ) (x : α) (l : List α) :
    List.Perm (insertEarnDesc earn x l) (x :: l) := by
  induction l with
  | nil => exact List.Perm.refl _
  | cons y ys ih =>
    unfold insertEarnDesc
    split_ifs
    · exact List.Perm.refl _
    · exact (List.Perm.cons y ih).trans (List.Perm.swap x y ys)

theorem foldl_insertEarnDesc_perm {α : Type} (earn : α → ℚ) (l acc : List α) :
    List.Perm (l.foldl (fun acc x => insertEarnDesc earn x acc) acc) (acc ++ l) := by
  induction l generalizing acc with
  | nil => simp
  | cons x t ih =>
    refine (ih (insertEarnDesc earn x acc)).trans ?_
    refine (((insertEarnDesc_perm earn x acc).append_right t).trans ?_)
    exact List.perm_middle.symm

theorem sortEarnDesc_perm {α : Type} (earn : α → ℚ) (l : List α) :
    List.Perm (sortEarnDesc earn l) l := by
  simpa using foldl_insertEarnDesc_perm earn l []

/-- Earnings accumulated over a list of platform groups. -/
def platEarnSum (l : List PlatAcc) : ℚ := (l.map (fun e => e.earnings)).sum

/-- Bug count accumulated over a list of platform groups. -/
def platBugsSum (l : List PlatAcc) : Nat := (l.map (fun e => e.bugs)).sum

theorem bumpFirstPlat_earnSum (k : String) (b : BugData) (acc : List PlatAcc)
    (h : acc.any (fun e => decide (e.name = k)) = true) :
    platEarnSum (bumpFirstPlat k b acc) = platEarnSum acc + bountyOrZero b := by
  induction acc with
  | nil => simp at h
  | cons e es ih =>
    by_cases he : e.name = k
    · simp [bumpFirstPlat, he, platEarnSum, bumpPlat]
      ring
    · have h' : es.any (fun e => decide (e.name = k)) = true := by
        simpa [List.any_cons, he] using h
      simp [bumpFirstPlat, he, platEarnSum]
      have := ih h'
      simp [platEarnSum] at this
      rw [this]
      ring

theorem bumpFirstPlat_bugsSum (k : String) (b : BugData) (acc : List PlatAcc)
    (h : acc.any (fun e => decide (e.name = k)) = true) :
    platBugsSum (bumpFirstPlat k b acc) = platBugsSum acc + 1 := by
  induction acc with
  | nil => simp at h
  | cons e es ih =>
    by_cases he : e.name = k
    · simp [bumpFirstPlat, he, platBugsSum, bumpPlat]
      omega
    · have h' : es.any (fun e => decide (e.name = k)) = true := by
        simpa [List.any_cons, he] using h
      have := ih h'
      simp [platBugsSum] at this ⊢
      simp [bumpFirstPlat, he, this]
      omega

theorem addPlat_earnSum (acc : List PlatAcc) (b : BugData) :
    platEarnSum (addPlat acc b) = platEarnSum acc + bountyOrZero b := by
  simp only [addPlat]
  by_cases h : acc.any (fun e => decide (e.name = platformNameOf b)) = true
  · rw [if_pos h]
    exact bumpFirstPlat_earnSum _ _ _ h
  · rw [if_neg h]
    have h2 : (acc ++ [initPlat (platformNameOf b)]).any
        (fun e => decide (e.name = platformNameOf b)) = true := by
      simp [List.any_append, initPlat]
    rw [bumpFirstPlat_earnSum _ _ _ h2]
    simp [platEarnSum, initPlat]

theorem addPlat_bugsSum (acc : List PlatAcc) (b : BugData) :
    platBugsSum (addPlat acc b) = platBugsSum acc + 1 := by
  simp only [addPlat]
  by_cases h : acc.any (fun e => decide (e.name = platformNameOf b)) = true
  · rw [if_pos h]
    exact bumpFirstPlat_bugsSum _ _ _ h
  · rw [if_neg h]
    have h2 : (acc ++ [initPlat (platformNameOf b)]).any
        (fun e => decide (e.name = platformNameOf b)) = true := by
      simp [List.any_append, initPlat]
    rw [bumpFirstPlat_bugsSum _ _ _ h2]
    simp [platBugsSum, initPlat]

theorem foldl_addPlat_earnSum (l : List BugData) (acc : List PlatAcc) :
    platEarnSum (l.foldl addPlat acc) = platEarnSum acc + sumBounty l := by
  induction l generalizing acc with
  | nil => simp [sumBounty]
  | cons b t ih =>
    simp only [List.foldl_cons, ih, addPlat_earnSum, sumBounty, List.map_cons, List.sum_cons]
    ring

theorem foldl_addPlat_bugsSum (l : List BugData) (acc : List PlatAcc) :
    platBugsSum (l.foldl addPlat acc) = platBugsSum acc + l.length := by
  induction l generalizing acc with
  | nil => simp
  | cons b t ih =>
    simp only [List.foldl_cons, ih, addPlat_bugsSum, List.length_cons]
    omega

theorem mem_bumpFirstPlat (k : String) (b : BugData) (acc : List PlatAcc) (e : PlatAcc)
    (h : e ∈ bumpFirstPlat k b acc) :
    e ∈ acc ∨ ∃ e0, e0 ∈ acc ∧ e = bumpPlat b e0 := by
  induction acc with
  | nil => simp [bumpFirstPlat] at h
  | cons f fs ih =>
    by_cases hf : f.name = k
    · simp only [bumpFirstPlat, hf, if_pos, List.mem_cons] at h
      rcases h with h | h
      · exact Or.inr ⟨f, by simp, h⟩
      · exact Or.inl (by simp [h])
    · simp only [bumpFirstPlat, hf, if_neg, List.mem_cons, reduceIte] at h
      rcases h with h | h
      · exact Or.inl (by simp [h])
      · rcases ih h with h' | ⟨e0, he0, he⟩
        · exact Or.inl (by simp [h'])
        · exact Or.inr ⟨e0, by simp [he0], he⟩

theorem bumpFirstPlat_append_last (k : String) (b : BugData) (acc : List PlatAcc)
    (e : PlatAcc) (h : acc.any (fun x => decide (x.name = k)) = false) (he : e.name = k) :
    bumpFirstPlat k b (acc ++ [e]) = acc ++ [bumpPlat b e] := by
  induction acc with
  | nil => simp [bumpFirstPlat, he]
  | cons f fs ih =>
    simp only [List.any_cons, Bool.or_eq_false_iff, decide_eq_false_iff_not] at h
    simp [bumpFirstPlat, h.1, ih h.2]

theorem mem_addPlat_bugs_pos (acc : List PlatAcc) (b : BugData)
    (h : ∀ e ∈ acc, 1 ≤ e.bugs) : ∀ e ∈ addPlat acc b, 1 ≤ e.bugs := by
  intro e he
  simp only [addPlat] at he
  by_cases hc : acc.any (fun e => decide (e.name = platformNameOf b)) = true
  · rw [if_pos hc] at he
    rcases mem_bumpFirstPlat _ _ _ _ he with h' | ⟨e0, he0, rfl⟩
    · exact h e h'
    · simp [bumpPlat]
  · rw [if_neg hc] at he
    rw [bumpFirstPlat_append_last _ _ _ _ (by simpa using hc) (by simp [initPlat])] at he
    rcases List.mem_append.1 he with h' | h'
    · exact h e h'
    · simp only [List.mem_singleton] at h'
      subst h'
      simp [bumpPlat]

theorem groupPlatforms_bugs_pos (bugs : List BugData) :
    ∀ e ∈ groupPlatforms bugs, 1 ≤ e.bugs := by
  unfold groupPlatforms
  have aux : ∀ (l : List BugData) (acc : List PlatAcc),
      (∀ e ∈ acc, 1 ≤ e.bugs) → ∀ e ∈ l.foldl addPlat acc, 1 ≤ e.bugs := by
    intro l
    induction l with
    | nil => intro acc h; simpa using h
    | cons b t ih =>
      intro acc h
      exact ih _ (mem_addPlat_bugs_pos acc b h)
  exact aux bugs [] (by simp)

/-- C5: summing the per-group earnings of the Platform Rollup over a
filtered collection gives exactly `totalEarnings` of the Summary Stats
on the same collection, which is the sum of the bounty amounts of the
collection with missing amounts as zero (partition property). -/
theorem platform_partition (bugs allBugs : List BugData) (now : JSDate) :
    ((calculatePlatformData bugs).map (fun p => p.earnings)).sum =
        (calculateStats bugs allBugs now).totalEarnings ∧
      (calculateStats bugs allBugs now).totalEarnings = sumBounty bugs := by
  have htot : (calculateStats bugs allBugs now).totalEarnings = sumBounty bugs := by
    show bugs.foldl (fun sum b => sum + bountyOrZero b) 0 = sumBounty bugs
    rw [foldl_add_bounty, zero_add]
  refine ⟨?_, htot⟩
  rw [htot]
  have hperm := (sortEarnDesc_perm (fun p : PlatformData => p.earnings)
      ((groupPlatforms bugs).map toPlatformData)).map (fun p => p.earnings)
  have hsum : ((calculatePlatformData bugs).map (fun p => p.earnings)).sum =
      (((groupPlatforms bugs).map toPlatformData).map (fun p => p.earnings)).sum :=
    hperm.sum_eq
  rw [hsum, List.map_map]
  have : ((fun p : PlatformData => p.earnings) ∘ toPlatformData) =
      fun e : PlatAcc => e.earnings := by
    funext e
    simp [toPlatformData]
  rw [this]
  have := foldl_addPlat_earnSum bugs []
  simp only [platEarnSum, List.map_nil, List.sum_nil, zero_add] at this
  exact this

/-- C10: the Platform Rollup partitions the input records into groups
keyed by platform name (`Unknown` when no program or platform link
exists): the per-group bug counts add up to the number of input records
and every group counts at least one bug. -/
theorem platform_counts (bugs : List BugData) :
    ((calculatePlatformData bugs).map (fun p => p.bugs)).sum = bugs.length ∧
      (calculatePlatformData bugs).all (fun p => decide (1 ≤ p.bugs)) = true := by
  constructor
  · have hperm := (sortEarnDesc_perm (fun p : PlatformData => p.earnings)
        ((groupPlatforms bugs).map toPlatformData)).map (fun p => p.bugs)
    have h1 : ((calculatePlatformData bugs).map (fun p => p.bugs)).sum =
        (((groupPlatforms bugs).map toPlatformData).map (fun p => p.bugs)).sum :=
      hperm.sum_eq
    rw [h1, List.map_map]
    have : ((fun p : PlatformData => p.bugs) ∘ toPlatformData) =
        fun e : PlatAcc => e.bugs := by
      funext e
      simp [toPlatformData]
    rw [this]
    have := foldl_addPlat_bugsSum bugs []
    simp only [platBugsSum, List.map_nil, List.sum_nil, zero_add] at this
    exact this
  · rw [List.all_eq_true]
    intro p hp
    have hmem : p ∈ (groupPlatforms bugs).map toPlatformData :=
      (sortEarnDesc_perm (fun p : PlatformData => p.earnings)
        ((groupPlatforms bugs).map toPlatformData)).mem_iff.1 hp
    rcases List.mem_map.1 hmem with ⟨e, he, rfl⟩
    simpa [toPlatformData] using groupPlatforms_bugs_pos bugs e he

/-- Keep the first defined value. -/
def firstSome (x y : Option String) : Option String :=
  match x with
  | some c => some c
  | none => y

@[simp] theorem firstSome_none (y : Option String) : firstSome none y = y := rfl

@[simp] theorem firstSome_some (c : String) (y : Option String) :
    firstSome (some c) y = some c := rfl

theorem companyLookup_cons (e : ProgAcc) (es : List ProgAcc) (g : String) :
    companyLookup (e :: es) g =
      if e.name = g then some e.company else companyLookup es g := by
  by_cases h : e.name = g
  · rw [if_pos h]
    unfold companyLookup
    rw [List.find?_cons_of_pos _ (by simp [h])]
    rfl
  · rw [if_neg h]
    unfold companyLookup
    rw [List.find?_cons_of_neg _ (by simp [h])]

theorem companyLookup_bumpFirstProg (k : String) (b : BugData) (acc : List ProgAcc)
    (g : String) :
    companyLookup (bumpFirstProg k b acc) g = companyLookup acc g := by
  induction acc with
  | nil => rfl
  | cons e es ih =>
    by_cases he : e.name = k
    · simp only [bumpFirstProg, if_pos he]
      rw [companyLookup_cons, companyLookup_cons]
      simp [bumpProg]
    · simp only [bumpFirstProg, if_neg he]
      rw [companyLookup_cons, companyLookup_cons, ih]

theorem companyLookup_append_last (acc : List ProgAcc) (e : ProgAcc) (g : String) :
    companyLookup (acc ++ [e]) g =
      firstSome (companyLookup acc g)
        (if e.name = g then some e.company else none) := by
  induction acc with
  | nil =>
    rw [List.nil_append, companyLookup_cons]
    by_cases h : e.name = g
    · rw [if_pos h, if_pos h]
      rfl
    · rw [if_neg h, if_neg h]
      rfl
  | cons f fs ih =>
    rw [List.cons_append, companyLookup_cons, companyLookup_cons]
    by_cases hf : f.name = g
    · rw [if_pos hf, if_pos hf]
      rfl
    · rw [if_neg hf, if_neg hf, ih]

theorem companyLookup_isSome_of_any (acc : List ProgAcc) (k : String)
    (h : acc.any (fun e => decide (e.name = k)) = true) :
    (companyLookup acc k).isSome = true := by
  induction acc with
  | nil => simp at h
  | cons e es ih =>
    by_cases he : e.name = k
    · rw [companyLookup_cons, if_pos he]
      rfl
    · rw [companyLookup_cons, if_neg he]
      apply ih
      simpa [List.any_cons, he] using h

theorem companyLookup_addProg (acc : List ProgAcc) (b : BugData) (g : String) :
    companyLookup (addProg acc b) g =
      firstSome (companyLookup acc g)
        (if programNameOf b = g then some (companyNameOf b) else none) := by
  simp only [addProg]
  by_cases hc : acc.any (fun e => decide (e.name = programNameOf b)) = true
  · rw [if_pos hc, companyLookup_bumpFirstProg]
    by_cases hg : programNameOf b = g
    · subst hg
      have hs := companyLookup_isSome_of_any acc _ hc
      rcases hx : companyLookup acc (programNameOf b) with _ | c
      · rw [hx] at hs
        simp at hs
      · rw [if_pos rfl, firstSome_some]
    · rw [if_neg hg]
      cases companyLookup acc g <;> rfl
  · rw [if_neg hc, companyLookup_bumpFirstProg, companyLookup_append_last]
    simp only [initProg]

theorem companyLookup_foldl_addProg (l : List BugData) (acc : List ProgAcc) (g : String) :
    companyLookup (l.foldl addProg acc) g =
      firstSome (companyLookup acc g)
        ((l.find? (fun b => decide (programNameOf b = g))).map companyNameOf) := by
  induction l generalizing acc with
  | nil =>
    rw [List.foldl_nil, List.find?_nil]
    cases companyLookup acc g <;> rfl
  | cons b t ih =>
    rw [List.foldl_cons, ih, companyLookup_addProg]
    by_cases hb : programNameOf b = g
    · rw [List.find?_cons_of_pos _ (by simp [hb]), if_pos hb]
      cases companyLookup acc g <;> rfl
    · rw [List.find?_cons_of_neg _ (by simp [hb]), if_neg hb]
      cases companyLookup acc g <;> rfl

/-- C3 counterexample: two records in the same program, company
`Alpha` seen first and `Beta` seen last; the leaderboard records
`Alpha`, the first-seen company, not the last-seen one. -/
theorem topPrograms_company_counterexample :
    (calculateTopPrograms
        [{ id := "1", title := "t1", severity := "Low", status := "Draft",
           bounty_amount := none, created_at := ⟨2024, 0, 1, 0⟩,
           submission_date := none, resolution_date := none, program_id := some "p",
           programs := some { target_name := "Prog", company := "Alpha",
                              platforms := none } },
         { id := "2", title := "t2", severity := "Low", status := "Draft",
           bounty_amount := none, created_at := ⟨2024, 0, 2, 0⟩,
           submission_date := none, resolution_date := none, program_id := some "p",
           programs := some { target_name := "Prog", company := "Beta",
                              platforms := none } }]).map (fun p => p.company) =
      ["Alpha"] ∧ ("Alpha" : String) ≠ "Beta" := by
  constructor
  · rfl
  · decide

/-- C3 (amended): in the Program Leaderboard aggregator, the company
recorded for each program-name group is the company of the first record
of the group in encounter order (first-seen wins, because only a
missing map entry is created with the company of the current record). -/
theorem groupPrograms_company (bugs : List BugData) (g : String) :
    companyLookup (groupPrograms bugs) g =
      (bugs.find? (fun b => decide (programNameOf b = g))).map companyNameOf := by
  have h := companyLookup_foldl_addProg bugs [] g
  rw [groupPrograms]
  rw [h]
  rfl

theorem insertEarnDesc_sorted {α : Type} (earn : α → ℚ) (x : α) (l : List α)
    (h : l.Pairwise (fun a b => earn b ≤ earn a)) :
    (insertEarnDesc earn x l).Pairwise (fun a b => earn b ≤ earn a) := by
  induction l with
  | nil => simp [insertEarnDesc]
  | cons y ys ih =>
    rw [List.pairwise_cons] at h
    obtain ⟨hy, hys⟩ := h
    unfold insertEarnDesc
    split_ifs with hlt
    · rw [List.pairwise_cons]
      refine ⟨?_, List.pairwise_cons.2 ⟨hy, hys⟩⟩
      intro a ha
      rcases List.mem_cons.1 ha with rfl | ha
      · exact le_of_lt hlt
      · exact le_trans (hy a ha) (le_of_lt hlt)
    · rw [List.pairwise_cons]
      refine ⟨?_, ih hys⟩
      intro a ha
      rcases List.mem_cons.1 ((insertEarnDesc_perm earn x ys).mem_iff.1 ha) with rfl | ha
      · exact le_of_not_lt hlt
      · exact hy a ha

theorem sortEarnDesc_sorted {α : Type} (earn : α → ℚ) (l : List α) :
    (sortEarnDesc earn l).Pairwise (fun a b => earn b ≤ earn a) := by
  have aux : ∀ (t acc : List α), acc.Pairwise (fun a b => earn b ≤ earn a) →
      (t.foldl (fun acc x => insertEarnDesc earn x acc) acc).Pairwise
        (fun a b => earn b ≤ earn a) := by
    intro t
    induction t with
    | nil => intro acc h; simpa using h
    | cons x s ih => intro acc h; exact ih _ (insertEarnDesc_sorted earn x acc h)
  simpa [sortEarnDesc] using aux l [] (by simp)

theorem filter_insertEarnDesc {α : Type} (earn : α → ℚ) (e : ℚ) (x : α) (l : List α)
    (h : l.Pairwise (fun a b => earn b ≤ earn a)) :
    (insertEarnDesc earn x l).filter (fun a => decide (earn a = e)) =
      if earn x = e then l.filter (fun a => decide (earn a = e)) ++ [x]
      else l.filter (fun a => decide (earn a = e)) := by
  induction l with
  | nil =>
    by_cases hx : earn x = e
    · rw [if_pos hx]
      simp [insertEarnDesc, List.filter_cons, hx]
    · rw [if_neg hx]
      simp [insertEarnDesc, List.filter_cons, hx]
  | cons y ys ih =>
    rw [List.pairwise_cons] at h
    obtain ⟨hy, hys⟩ := h
    by_cases hlt : earn y < earn x
    · rw [show insertEarnDesc earn x (y :: ys) = x :: y :: ys from by
        simp [insertEarnDesc, hlt]]
      by_cases hx : earn x = e
      · have hnil : (y :: ys).filter (fun a => decide (earn a = e)) = [] := by
          rw [List.filter_eq_nil_iff]
          intro a ha
          rcases List.mem_cons.1 ha with rfl | ha
          · simp only [decide_eq_true_eq]
            exact ne_of_lt (hx ▸ hlt)
          · simp only [decide_eq_true_eq]
            exact ne_of_lt (lt_of_le_of_lt (hy a ha) (hx ▸ hlt))
        rw [if_pos hx]
        simp [List.filter_cons, hx, hnil]
      · rw [if_neg hx]
        simp [List.filter_cons, hx]
    · rw [show insertEarnDesc earn x (y :: ys) = y :: insertEarnDesc earn x ys from by
        simp [insertEarnDesc, hlt]]
      by_cases hx : earn x = e
      · rw [if_pos hx]
        by_cases hyE : earn y = e
        · simp [List.filter_cons, hyE, ih hys, hx]
        · simp [List.filter_cons, hyE, ih hys, hx]
      · rw [if_neg hx]
        by_cases hyE : earn y = e
        · simp [List.filter_cons, hyE, ih hys, hx]
        · simp [List.filter_cons, hyE, ih hys, hx]

theorem filter_sortEarnDesc {α : Type} (earn : α → ℚ) (e : ℚ) (l : List α) :
    (sortEarnDesc earn l).filter (fun a => decide (earn a = e)) =
      l.filter (fun a => decide (earn a = e)) := by
  have aux : ∀ (t acc : List α), acc.Pairwise (fun a b => earn b ≤ earn a) →
      (t.foldl (fun acc x => insertEarnDesc earn x acc) acc).filter
          (fun a => decide (earn a = e)) =
        acc.filter (fun a => decide (earn a = e)) ++
          t.filter (fun a => decide (earn a = e)) := by
    intro t
    induction t with
    | nil => intro acc h; simp
    | cons x s ih =>
      intro acc h
      rw [List.foldl_cons, ih _ (insertEarnDesc_sorted earn x acc h),
        filter_insertEarnDesc earn e x acc h]
      by_cases hx : earn x = e
      · rw [if_pos hx]
        simp [List.filter_cons, hx]
      · rw [if_neg hx]
        simp [List.filter_cons, hx]
  simpa [sortEarnDesc] using aux l [] (by simp)

theorem exists_take_filter {α : Type} (p : α → Bool) (n : Nat) (l : List α) :
    ∃ k, (l.take n).filter p = (l.filter p).take k := by
  induction l generalizing n with
  | nil => exact ⟨0, by simp⟩
  | cons x t ih =>
    cases n with
    | zero => exact ⟨0, by simp⟩
    | succ m =>
      rcases ih m with ⟨k, hk⟩
      by_cases hx : p x = true
      · exact ⟨k + 1, by simp [List.take_succ_cons, List.filter_cons, hx, hk]⟩
      · exact ⟨k, by simp [List.take_succ_cons, List.filter_cons, hx, hk]⟩

/-- C9: the Program Leaderboard output has at most five entries, is
sorted non-increasingly by earnings, and within every earnings value
the entries keep their encounter order from the grouping pass (the
stable sort makes ties keep first-occurrence order, and the top-five
truncation takes a prefix of each tie class). -/
theorem topPrograms_spec (bugs : List BugData) :
    (calculateTopPrograms bugs).length ≤ 5 ∧
      (calculateTopPrograms bugs).Pairwise (fun a b => b.earnings ≤ a.earnings) ∧
      ∀ e : ℚ, ∃ k,
        (calculateTopPrograms bugs).filter (fun p => decide (p.earnings = e)) =
          (((groupPrograms bugs).map toProgramData).filter
            (fun p => decide (p.earnings = e))).take k := by
  refine ⟨?_, ?_, ?_⟩
  · show (List.take 5 _).length ≤ 5
    rw [List.length_take]
    exact min_le_left _ _
  · have hs := sortEarnDesc_sorted (fun p : ProgramData => p.earnings)
      ((groupPrograms bugs).map toProgramData)
    exact hs.sublist (List.take_sublist 5 _)
  · intro e
    rcases exists_take_filter (fun p : ProgramData => decide (p.earnings = e)) 5
        (sortEarnDesc (fun p => p.earnings) ((groupPrograms bugs).map toProgramData))
      with ⟨k, hk⟩
    refine ⟨k, ?_⟩
    show (List.take 5 _).filter _ = _
    rw [hk, filter_sortEarnDesc]

theorem foldl_map_update {α β : Type} (f : β → α → α) (l : List β) (init : List α) :
    l.foldl (fun acc b => acc.map (f b)) init =
      init.map (fun x => l.foldl (fun x b => f b x) x) := by
  induction l generalizing init with
  | nil => simp
  | cons b t ih =>
    rw [List.foldl_cons, ih, List.map_map]
    rfl

theorem perBucket_fold (l : List BugData) (md : MonthlyData) :
    l.foldl
        (fun md b => if md.month = monthKey b.created_at then bumpMonthly b md else md)
        md =
      { month := md.month
        earnings := md.earnings +
          sumBounty (l.filter (fun b => decide (monthKey b.created_at = md.month)))
        submissions := md.submissions +
          l.countP (fun b => decide (monthKey b.created_at = md.month))
        accepted := md.accepted +
          l.countP (fun b => decide (monthKey b.created_at = md.month) &&
            acceptedStatuses.contains b.status) } := by
  induction l generalizing md with
  | nil =>
    cases md
    simp [sumBounty]
  | cons b t ih =>
    rw [List.foldl_cons]
    by_cases hb : monthKey b.created_at = md.month
    · rw [if_pos hb.symm, ih]
      have hfil : (b :: t).filter (fun x => decide (monthKey x.created_at = md.month)) =
          b :: t.filter (fun x => decide (monthKey x.created_at = md.month)) := by
        simp [List.filter_cons, hb]
      have hcnt : (b :: t).countP (fun x => decide (monthKey x.created_at = md.month)) =
          t.countP (fun x => decide (monthKey x.created_at = md.month)) + 1 := by
        simp [List.countP_cons, hb]
      have hcnt2 : (b :: t).countP (fun x => decide (monthKey x.created_at = md.month) &&
            acceptedStatuses.contains x.status) =
          t.countP (fun x => decide (monthKey x.created_at = md.month) &&
            acceptedStatuses.contains x.status) +
            (if acceptedStatuses.contains b.status = true then 1 else 0) := by
        by_cases ha : acceptedStatuses.contains b.status = true <;>
          simp [List.countP_cons, hb, ha]
      rw [hfil, hcnt, hcnt2]
      simp only [bumpMonthly, sumBounty, List.map_cons, List.sum_cons, MonthlyData.mk.injEq]
      refine ⟨trivial, by ring, by omega, ?_⟩
      by_cases ha : acceptedStatuses.contains b.status = true
      · rw [if_pos ha, if_pos ha]
        omega
      · rw [if_neg ha, if_neg ha]
        omega
    · rw [if_neg (fun h => hb h.symm), ih]
      simp [List.filter_cons, List.countP_cons, hb]

/-- C4 counterexample: with the current time on June 15, 2024, a record
created on June 1, 2124 lies outside the trailing twelve months (it is
at or after the start of the month following the current one), yet its
locale label (short month plus two digit year) collides with the label
of the June 2024 bucket, so the record is counted: the series reports a
total of one submission, not zero. -/
theorem monthly_window_counterexample :
    dateLeB (mkMonthStart 2024 6) (⟨2124, 5, 1, 0⟩ : JSDate) = true ∧
      ((calculateMonthlyData
          [{ id := "x", title := "t", severity := "Low", status := "Draft",
             bounty_amount := none, created_at := ⟨2124, 5, 1, 0⟩,
             submission_date := none, resolution_date := none, program_id := none,
             programs := none }] ⟨2024, 5, 15, 0⟩).map
        (fun md => md.submissions)).sum = 1 := by
  constructor
  · decide
  · rfl

/-- C4 (amended): for every input collection and fixed current time,
the Monthly Series has exactly twelve buckets, one per calendar month
of the trailing twelve months ending at the current month, ordered
oldest first with pairwise distinct label keys; every record is counted
in exactly the bucket whose label key (short month plus two digit year)
matches its `created_at` value.  A record inside the twelve-month
window therefore lands in its own calendar month; a record outside the
window is dropped unless its month index matches a bucket and its year
is congruent to the bucket year modulo 100, in which case it is counted
in that colliding bucket. -/
theorem monthlyData_spec (bugs : List BugData) (now : JSDate) :
    (calculateMonthlyData bugs now).length = 12 ∧
      (calculateMonthlyData bugs now).map (fun md => md.month) =
        (List.range 12).map
          (fun (i : Nat) => monthKey (mkMonthStart now.year (now.month - 11 + (i : Int)))) ∧
      ((calculateMonthlyData bugs now).map (fun md => md.month)).Nodup ∧
      calculateMonthlyData bugs now =
        (monthlyInit now).map (fun md =>
          { month := md.month
            earnings := sumBounty (bugs.filter
              (fun b => decide (monthKey b.created_at = md.month)))
            submissions := bugs.countP
              (fun b => decide (monthKey b.created_at = md.month))
            accepted := bugs.countP
              (fun b => decide (monthKey b.created_at = md.month) &&
                acceptedStatuses.contains b.status) }) := by
  have hmain : calculateMonthlyData bugs now =
      (monthlyInit now).map (fun md =>
        { month := md.month
          earnings := sumBounty (bugs.filter
            (fun b => decide (monthKey b.created_at = md.month)))
          submissions := bugs.countP
            (fun b => decide (monthKey b.created_at = md.month))
          accepted := bugs.countP
            (fun b => decide (monthKey b.created_at = md.month) &&
              acceptedStatuses.contains b.status) }) := by
    rw [calculateMonthlyData, foldl_map_update]
    apply List.map_congr_left
    intro md hmd
    rw [perBucket_fold]
    rcases List.mem_map.1 hmd with ⟨i, hi, rfl⟩
    simp
  have hlab : (calculateMonthlyData bugs now).map (fun md => md.month) =
      (List.range 12).map
        (fun (i : Nat) => monthKey (mkMonthStart now.year (now.month - 11 + (i : Int)))) := by
    rw [hmain, List.map_map, monthlyInit, List.map_map]
    rfl
  refine ⟨?_, hlab, ?_, hmain⟩
  · rw [hmain]
    simp [monthlyInit]
  · rw [hlab]
    refine List.Nodup.map_on ?_ (List.nodup_range 12)
    intro i hi j hj hij
    rw [List.mem_range] at hi hj
    simp only [monthKey, mkMonthStart, Prod.mk.injEq] at hij
    obtain ⟨h1, h2⟩ := hij
    omega

theorem bool_eq_of_iff {a b : Bool} (h : (a = true) ↔ (b = true)) : a = b := by
  cases a <;> cases b <;> simp_all

theorem dateLeB_iff (a b : JSDate) :
    dateLeB a b = true ↔
      (a.year < b.year ∨ (a.year = b.year ∧ (a.month < b.month ∨ (a.month = b.month ∧
        (a.day < b.day ∨ (a.day = b.day ∧ a.ms ≤ b.ms)))))) := by
  cases a with
  | mk ay am ad ams =>
    cases b with
    | mk ky km kd kms =>
      simp [dateLeB, dateLtB, JSDate.mk.injEq]
      omega

theorem mkMonthStart_id (y m : Int) (h0 : 0 ≤ m) (h1 : m ≤ 11) :
    mkMonthStart y m = ⟨y, m, 1, 0⟩ := by
  unfold mkMonthStart
  have hd : m / 12 = 0 := by omega
  have hm : m % 12 = m := by omega
  rw [hd, hm, add_zero]

theorem mkMonthEnd_eq_prev (y m : Int) (h0 : 0 ≤ m) (h1 : m ≤ 11) :
    mkMonthEnd y m = ⟨(mkMonthStart y (m - 1)).year, (mkMonthStart y (m - 1)).month,
      daysInMonth (mkMonthStart y (m - 1)).year (mkMonthStart y (m - 1)).month, 0⟩ := by
  unfold mkMonthEnd mkMonthStart
  have hd : m / 12 = 0 := by omega
  have hm : m % 12 = m := by omega
  rw [hd, hm]
  by_cases h : m = 0
  · subst h
    have hd1 : ((0 : Int) - 1) / 12 = -1 := by omega
    have hm1 : ((0 : Int) - 1) % 12 = 11 := by omega
    rw [if_pos rfl, hd1, hm1, JSDate.mk.injEq]
    simp [daysInMonth]
    try omega
  · have hd1 : (m - 1) / 12 = 0 := by omega
    have hm1 : (m - 1) % 12 = m - 1 := by omega
    rw [if_neg h, hd1, hm1, JSDate.mk.injEq]
    simp [daysInMonth]
    try omega

theorem thisMonth_pointwise (now d : JSDate)
    (hnow : 0 ≤ now.month ∧ now.month ≤ 11) (hd : WFDate d) :
    dateLeB (mkMonthStart now.year now.month) d = thisMonthOrLaterB now d := by
  obtain ⟨h1, h2, h3, h4, h5, h6⟩ := hd
  rw [mkMonthStart_id now.year now.month hnow.1 hnow.2]
  apply bool_eq_of_iff
  rw [dateLeB_iff]
  simp only [thisMonthOrLaterB, Bool.or_eq_true, Bool.and_eq_true, decide_eq_true_eq]
  omega

theorem thisYear_pointwise (now d : JSDate) (hd : WFDate d) :
    dateLeB (mkMonthStart now.year 0) d = thisYearOrLaterB now d := by
  obtain ⟨h1, h2, h3, h4, h5, h6⟩ := hd
  rw [mkMonthStart_id now.year 0 (by omega) (by omega)]
  apply bool_eq_of_iff
  rw [dateLeB_iff]
  simp only [thisYearOrLaterB, decide_eq_true_eq]
  omega

theorem lastMonth_pointwise (now d : JSDate)
    (hnow : 0 ≤ now.month ∧ now.month ≤ 11) (hd : WFDate d) :
    (dateLeB (mkMonthStart now.year (now.month - 1)) d &&
        dateLeB d (mkMonthEnd now.year now.month)) = inPrevMonthClippedB now d := by
  obtain ⟨h1, h2, h3, h4, h5, h6⟩ := hd
  rw [mkMonthEnd_eq_prev now.year now.month hnow.1 hnow.2]
  apply bool_eq_of_iff
  rw [Bool.and_eq_true, dateLeB_iff, dateLeB_iff]
  simp only [inPrevMonthClippedB, Bool.or_eq_true, Bool.and_eq_true, decide_eq_true_eq]
  have hpd : (mkMonthStart now.year (now.month - 1)).day = 1 := rfl
  have hpms : (mkMonthStart now.year (now.month - 1)).ms = 0 := rfl
  rw [hpd, hpms]
  omega

theorem lastYear_pointwise (now d : JSDate) (hd : WFDate d) :
    (dateLeB (mkMonthStart (now.year - 1) 0) d &&
        dateLeB d ⟨now.year - 1, 11, 31, 0⟩) = inPrevYearClippedB now d := by
  obtain ⟨h1, h2, h3, h4, h5, h6⟩ := hd
  rw [mkMonthStart_id (now.year - 1) 0 (by omega) (by omega)]
  apply bool_eq_of_iff
  rw [Bool.and_eq_true, dateLeB_iff, dateLeB_iff]
  simp [inPrevYearClippedB]
  omega

/-- Sample record created on July 1, 2024 with a bounty of 100. -/
def bugJulyFirst : BugData :=
  { id := "j", title := "t", severity := "Low", status := "Draft",
    bounty_amount := some 100, created_at := ⟨2024, 6, 1, 0⟩,
    submission_date := none, resolution_date := none, program_id := none,
    programs := none }

/-- Sample record created at noon on May 31, 2024 with a bounty of 100. -/
def bugMayNoon : BugData :=
  { id := "m", title := "t", severity := "Low", status := "Draft",
    bounty_amount := some 100, created_at := ⟨2024, 4, 31, 43200000⟩,
    submission_date := none, resolution_date := none, program_id := none,
    programs := none }

/-- C2 counterexample, current time June 15, 2024: (i) a record created
on July 1, 2024 lies at or past any exclusive upper bound of the
current calendar month, yet contributes its bounty of 100 to
`thisMonthEarnings`, so the this-month test has no upper bound; and
(ii) a record created at noon on May 31, 2024 lies inside the full
previous calendar month, yet contributes nothing to
`lastMonthEarnings`, so the last-month bucket does not include the full
final day of the month. -/
theorem calendarBuckets_counterexample :
    (calculateStats [] [bugJulyFirst] ⟨2024, 5, 15, 0⟩).thisMonthEarnings = 100 ∧
      dateLtB bugJulyFirst.created_at (mkMonthStart 2024 6) = false ∧
      (calculateStats [] [bugMayNoon] ⟨2024, 5, 15, 0⟩).lastMonthEarnings = 0 ∧
      dateLeB (mkMonthStart 2024 4) bugMayNoon.created_at = true ∧
      dateLtB bugMayNoon.created_at (mkMonthStart 2024 5) = true ∧
      bountyOrZero bugMayNoon = 100 := by
  refine ⟨?_, by decide, ?_, by decide, by decide, by norm_num [bountyOrZero, bugMayNoon]⟩
  · show (([bugJulyFirst].filter (fun b =>
        dateLeB (mkMonthStart (2024 : Int) 5) b.created_at)).foldl
          (fun sum b => sum + bountyOrZero b) 0 : ℚ) = 100
    norm_num [List.filter, bugJulyFirst, dateLeB, dateLtB, mkMonthStart, bountyOrZero]
  · show (([bugMayNoon].filter (fun b =>
        dateLeB (mkMonthStart (2024 : Int) (5 - 1)) b.created_at &&
          dateLeB b.created_at (mkMonthEnd (2024 : Int) 5))).foldl
            (fun sum b => sum + bountyOrZero b) 0 : ℚ) = 0
    norm_num [List.filter, bugMayNoon, dateLeB, dateLtB, mkMonthStart, mkMonthEnd,
      daysInMonth, isLeapYear]

/-- C2 (amended): the four calendar-bucketed earnings sums are computed
from the unfiltered collection regardless of the active time-window
selector.  The this-month and this-year buckets use an inclusive lower
bound and no upper bound: a record created in the current calendar
month (respectively year) or any later one is counted.  The last-month
and last-year buckets run from the period start, inclusive, up to
midnight at the start of the final day of the period: a record created
strictly after 00:00 on that final day is excluded. -/
theorem calendarBuckets_spec (bugs fb : List BugData) (range : String) (now : JSDate)
    (hnow : 0 ≤ now.month ∧ now.month ≤ 11)
    (hwf : ∀ b ∈ bugs, WFDate b.created_at) :
    ((analyticsStats bugs range now).thisMonthEarnings =
          (analyticsStats bugs "all" now).thisMonthEarnings ∧
        (analyticsStats bugs range now).lastMonthEarnings =
          (analyticsStats bugs "all" now).lastMonthEarnings ∧
        (analyticsStats bugs range now).thisYearEarnings =
          (analyticsStats bugs "all" now).thisYearEarnings ∧
        (analyticsStats bugs range now).lastYearEarnings =
          (analyticsStats bugs "all" now).lastYearEarnings) ∧
      (calculateStats fb bugs now).thisMonthEarnings =
        sumBounty (bugs.filter (fun b => thisMonthOrLaterB now b.created_at)) ∧
      (calculateStats fb bugs now).thisYearEarnings =
        sumBounty (bugs.filter (fun b => thisYearOrLaterB now b.created_at)) ∧
      (calculateStats fb bugs now).lastMonthEarnings =
        sumBounty (bugs.filter (fun b => inPrevMonthClippedB now b.created_at)) ∧
      (calculateStats fb bugs now).lastYearEarnings =
        sumBounty (bugs.filter (fun b => inPrevYearClippedB now b.created_at)) := by
  refine ⟨⟨rfl, rfl, rfl, rfl⟩, ?_, ?_, ?_, ?_⟩
  · have hproj : (calculateStats fb bugs now).thisMonthEarnings =
        (bugs.filter (fun b =>
          dateLeB (mkMonthStart now.year now.month) b.created_at)).foldl
            (fun sum b => sum + bountyOrZero b) 0 := rfl
    rw [hproj, foldl_add_bounty, zero_add]
    have heq : bugs.filter
        (fun b => dateLeB (mkMonthStart now.year now.month) b.created_at) =
        bugs.filter (fun b => thisMonthOrLaterB now b.created_at) :=
      List.filter_congr (fun b hb => thisMonth_pointwise now b.created_at hnow (hwf b hb))
    rw [heq]
  · have hproj : (calculateStats fb bugs now).thisYearEarnings =
        (bugs.filter (fun b =>
          dateLeB (mkMonthStart now.year 0) b.created_at)).foldl
            (fun sum b => sum + bountyOrZero b) 0 := rfl
    rw [hproj, foldl_add_bounty, zero_add]
    have heq : bugs.filter
        (fun b => dateLeB (mkMonthStart now.year 0) b.created_at) =
        bugs.filter (fun b => thisYearOrLaterB now b.created_at) :=
      List.filter_congr (fun b hb => thisYear_pointwise now b.created_at (hwf b hb))
    rw [heq]
  · have hproj : (calculateStats fb bugs now).lastMonthEarnings =
        (bugs.filter (fun b =>
          dateLeB (mkMonthStart now.year (now.month - 1)) b.created_at &&
            dateLeB b.created_at (mkMonthEnd now.year now.month))).foldl
            (fun sum b => sum + bountyOrZero b) 0 := rfl
    rw [hproj, foldl_add_bounty, zero_add]
    have heq : bugs.filter
        (fun b => dateLeB (mkMonthStart now.year (now.month - 1)) b.created_at &&
          dateLeB b.created_at (mkMonthEnd now.year now.month)) =
        bugs.filter (fun b => inPrevMonthClippedB now b.created_at) :=
      List.filter_congr (fun b hb => lastMonth_pointwise now b.created_at hnow (hwf b hb))
    rw [heq]
  · have hproj : (calculateStats fb bugs now).lastYearEarnings =
        (bugs.filter (fun b =>
          dateLeB (mkMonthStart (now.year - 1) 0) b.created_at &&
            dateLeB b.created_at ⟨now.year - 1, 11, 31, 0⟩)).foldl
            (fun sum b => sum + bountyOrZero b) 0 := rfl
    rw [hproj, foldl_add_bounty, zero_add]
    have heq : bugs.filter
        (fun b => dateLeB (mkMonthStart (now.year - 1) 0) b.created_at &&
          dateLeB b.created_at ⟨now.year - 1, 11, 31, 0⟩) =
        bugs.filter (fun b => inPrevYearClippedB now b.created_at) :=
      List.filter_congr (fun b hb => lastYear_pointwise now b.created_at (hwf b hb))
    rw [heq]

/-- C2 witness: the amended statement instantiated at the current time
June 15, 2024, the collection holding the single record of July 1,
2024, the selector `month` and an empty filtered collection. -/
theorem calendarBuckets_spec_witness :
    ((0 : Int) ≤ (⟨2024, 5, 15, 0⟩ : JSDate).month ∧
        (⟨2024, 5, 15, 0⟩ : JSDate).month ≤ 11) ∧
      (∀ b ∈ [bugJulyFirst], WFDate b.created_at) ∧
      (((analyticsStats [bugJulyFirst] "month" ⟨2024, 5, 15, 0⟩).thisMonthEarnings =
            (analyticsStats [bugJulyFirst] "all" ⟨2024, 5, 15, 0⟩).thisMonthEarnings ∧
          (analyticsStats [bugJulyFirst] "month" ⟨2024, 5, 15, 0⟩).lastMonthEarnings =
            (analyticsStats [bugJulyFirst] "all" ⟨2024, 5, 15, 0⟩).lastMonthEarnings ∧
          (analyticsStats [bugJulyFirst] "month" ⟨2024, 5, 15, 0⟩).thisYearEarnings =
            (analyticsStats [bugJulyFirst] "all" ⟨2024, 5, 15, 0⟩).thisYearEarnings ∧
          (analyticsStats [bugJulyFirst] "month" ⟨2024, 5, 15, 0⟩).lastYearEarnings =
            (analyticsStats [bugJulyFirst] "all" ⟨2024, 5, 15, 0⟩).lastYearEarnings) ∧
        (calculateStats [] [bugJulyFirst] ⟨2024, 5, 15, 0⟩).thisMonthEarnings =
          sumBounty ([bugJulyFirst].filter
            (fun b => thisMonthOrLaterB ⟨2024, 5, 15, 0⟩ b.created_at)) ∧
        (calculateStats [] [bugJulyFirst] ⟨2024, 5, 15, 0⟩).thisYearEarnings =
          sumBounty ([bugJulyFirst].filter
            (fun b => thisYearOrLaterB ⟨2024, 5, 15, 0⟩ b.created_at)) ∧
        (calculateStats [] [bugJulyFirst] ⟨2024, 5, 15, 0⟩).lastMonthEarnings =
          sumBounty ([bugJulyFirst].filter
            (fun b => inPrevMonthClippedB ⟨2024, 5, 15, 0⟩ b.created_at)) ∧
        (calculateStats [] [bugJulyFirst] ⟨2024, 5, 15, 0⟩).lastYearEarnings =
          sumBounty ([bugJulyFirst].filter
            (fun b => inPrevYearClippedB ⟨2024, 5, 15, 0⟩ b.created_at))) :=
  ⟨⟨by decide, by decide⟩, by decide,
    calendarBuckets_spec [bugJulyFirst] [] "month" ⟨2024, 5, 15, 0⟩
      ⟨by decide, by decide⟩ (by decide)⟩

/-- C1: for every filtered record collection, `successRate` equals
`acceptedBugs / (acceptedBugs + rejectedBugs) * 100` when
`acceptedBugs + rejectedBugs` is positive and `0` otherwise, and lies
in `[0, 100]`; here `acceptedBugs` counts the records whose status is
Accepted, Resolved or Bounty Awarded and `rejectedBugs` those whose
status is Duplicate or Not Applicable. -/
theorem successRate_spec (bugs allBugs : List BugData) (now : JSDate) :
    (calculateStats bugs allBugs now).acceptedBugs =
        (bugs.filter (fun b => acceptedStatuses.contains b.status)).length ∧
      (calculateStats bugs allBugs now).rejectedBugs =
        (bugs.filter (fun b => rejectedStatuses.contains b.status)).length ∧
      (calculateStats bugs allBugs now).successRate =
        (if (calculateStats bugs allBugs now).acceptedBugs +
            (calculateStats bugs allBugs now).rejectedBugs = 0 then 0
          else ((calculateStats bugs allBugs now).acceptedBugs : ℚ) /
            ((((calculateStats bugs allBugs now).acceptedBugs : Nat) +
              ((calculateStats bugs allBugs now).rejectedBugs : Nat) : Nat) : ℚ) * 100) ∧
      0 ≤ (calculateStats bugs allBugs now).successRate ∧
      (calculateStats bugs allBugs now).successRate ≤ 100 := by
  have hres :
      (bugs.filter (fun b =>
          acceptedStatuses.contains b.status || rejectedStatuses.contains b.status)).length =
        (bugs.filter (fun b => acceptedStatuses.contains b.status)).length +
          (bugs.filter (fun b => rejectedStatuses.contains b.status)).length :=
    filter_or_length_disjoint _ _ _ (fun b => accepted_not_rejected b.status)
  have hacc : (calculateStats bugs allBugs now).acceptedBugs =
      (bugs.filter (fun b => acceptedStatuses.contains b.status)).length := rfl
  have hrej : (calculateStats bugs allBugs now).rejectedBugs =
      (bugs.filter (fun b => rejectedStatuses.contains b.status)).length := rfl
  have hsr : (calculateStats bugs allBugs now).successRate =
      (if 0 < (bugs.filter (fun b =>
            acceptedStatuses.contains b.status || rejectedStatuses.contains b.status)).length
        then (((bugs.filter (fun b => acceptedStatuses.contains b.status)).length : ℚ) /
            ((bugs.filter (fun b =>
              acceptedStatuses.contains b.status ||
                rejectedStatuses.contains b.status)).length : ℚ)) * 100
        else 0) := rfl
  set a := (bugs.filter (fun b => acceptedStatuses.contains b.status)).length with ha
  set r := (bugs.filter (fun b => rejectedStatuses.contains b.status)).length with hr
  have hval : (calculateStats bugs allBugs now).successRate =
      (if a + r = 0 then 0 else (a : ℚ) / ((a + r : Nat) : ℚ) * 100) := by
    rw [hsr, hres]
    rcases Nat.eq_zero_or_pos (a + r) with h0 | h0
    · rw [if_neg (by omega), if_pos h0]
    · rw [if_pos h0, if_neg (by omega)]
  refine ⟨hacc, hrej, by rw [hval, hacc, hrej], ?_, ?_⟩
  · rw [hval]
    rcases Nat.eq_zero_or_pos (a + r) with h0 | h0
    · simp [h0]
    · rw [if_neg (by omega)]
      positivity
  · rw [hval]
    rcases Nat.eq_zero_or_pos (a + r) with h0 | h0
    · simp [h0]
    · rw [if_neg (by omega)]
      have hle : (a : ℚ) / ((a + r : Nat) : ℚ) ≤ 1 := by
        rw [div_le_one (by exact_mod_cast h0)]
        exact_mod_cast Nat.le_add_right a r
      calc (a : ℚ) / ((a + r : Nat) : ℚ) * 100 ≤ 1 * 100 :=
            mul_le_mul_of_nonneg_right hle (by norm_num)
        _ = 100 := one_mul 100

/-- C6: the time-window filter is idempotent: for every record
collection, every selector and a fixed current time, applying
`filterBugsByTimeRange` to its own output with the same selector
returns that output unchanged. -/
theorem filterBugsByTimeRange_idempotent
    (bugs : List BugData) (range : String) (now : JSDate) :
    filterBugsByTimeRange (filterBugsByTimeRange bugs range now) range now =
      filterBugsByTimeRange bugs range now := by
  unfold filterBugsByTimeRange
  split_ifs <;> simp [List.filter_filter]

/-- C7: the time-window filter is a total function; the selector `all`,
and any selector outside the four recognised tokens, returns the full
input collection unchanged and in the same order. -/
theorem filterBugsByTimeRange_fallback
    (bugs : List BugData) (now : JSDate) (range : String) :
    filterBugsByTimeRange bugs "all" now = bugs ∧
      (range ≠ "month" → range ≠ "6months" → range ≠ "year" →
        filterBugsByTimeRange bugs range now = bugs) := by
  constructor
  · simp [filterBugsByTimeRange]
  · intro h1 h2 h3
    simp [filterBugsByTimeRange, h1, h2, h3]

/-- C7 witness: the fallback behaviour at the concrete unrecognised
selector `bogus`. -/
theorem filterBugsByTimeRange_fallback_witness :
    (("bogus" : String) ≠ "month" ∧ ("bogus" : String) ≠ "6months" ∧
        ("bogus" : String) ≠ "year") ∧
      filterBugsByTimeRange [] "all" ⟨2024, 5, 15, 0⟩ = [] ∧
      filterBugsByTimeRange [] "bogus" ⟨2024, 5, 15, 0⟩ = [] :=
  ⟨⟨by decide, by decide, by decide⟩,
    (filterBugsByTimeRange_fallback [] ⟨2024, 5, 15, 0⟩ "bogus").1,
    (filterBugsByTimeRange_fallback [] ⟨2024, 5, 15, 0⟩ "bogus").2
      (by decide) (by decide) (by decide)⟩
